import Mathlib

/-!
# Reporter API: the ingest registry and its HTTP handlers

A shallow embedding of `internal/reporter/api.go`.  The handlers are methods
of `*API`; each one is embedded as a function from the server value and the
request context to the response and the server value afterwards.  The cache
(`*sync.Map`) is embedded sequentially: one handler runs at a time.
-/

namespace Reporter

/-- Modelled from the spec: the descriptor type `sources.Ingest`, declared in
`internal/sources`.  The handlers only read its `Signal` field (the `signal`
key on the wire); every other field is carried along uninterpreted. -/
structure Ingest where
  Signal : String
  Fields : List (String × String)
deriving DecidableEq

/-- Sequential content of a Go `sync.Map` whose keys are signal names and whose
values are descriptors: at most one entry per key. -/
structure SyncMap where
  entries : List (String × Ingest)
  nodup : (entries.map Prod.fst).Nodup

namespace SyncMap

/-- The zero value `sync.Map{}`. -/
def empty : SyncMap := ⟨[], List.nodup_nil⟩

/-- `m.Load(key)`: the value stored under the key, if any. -/
def Load (m : SyncMap) (key : String) : Option Ingest :=
  (m.entries.find? (fun e => e.1 == key)).map Prod.snd

/-- `m.Delete(key)`: drops the entry of the key. -/
def Delete (m : SyncMap) (key : String) : SyncMap :=
  ⟨m.entries.filter (fun e => e.1 != key),
    List.Nodup.sublist (List.Sublist.map Prod.fst (List.filter_sublist m.entries)) m.nodup⟩

/-- `m.Store(key, value)`: sets the value of the key, replacing an earlier one. -/
def Store (m : SyncMap) (key : String) (value : Ingest) : SyncMap :=
  ⟨(key, value) :: m.entries.filter (fun e => e.1 != key), by
    rw [List.map_cons, List.nodup_cons]
    refine ⟨?_, (m.Delete key).nodup⟩
    simp [List.mem_map, List.mem_filter]⟩

/-- The loop of `m.Range(f)` over the entries found in the map: `f` is called
on each entry in turn and threads the caller's state (the variables the Go
closure captures); iteration stops as soon as `f` returns false. -/
def rangeLoop {σ : Type} (f : String → Ingest → σ → σ × Bool) :
    List (String × Ingest) → σ → σ
  | [], s => s
  | (key, value) :: rest, s =>
    match f key value s with
    | (s1, true) => rangeLoop f rest s1
    | (s1, false) => s1

/-- `m.Range(f)`: visits every key of the map once, in the order the entries
are held (Go leaves the order unspecified).  The callbacks of this package
either leave the map alone or delete the key being visited, so the entries
still to be visited are the ones found at the start. -/
def Range {σ : Type} (m : SyncMap) (f : String → Ingest → σ → σ × Bool) (s : σ) : σ :=
  rangeLoop f m.entries s

end SyncMap

/-- The function behind `echo.Validator`: an error message when the value is rejected. -/
abbrev Validator := Ingest → Option String

/-- The part of `echo.Echo` that matters to request handling: the registered
validator, if any. -/
structure Echo where
  Validator : Option Validator

/-- `echo.New()`: a fresh instance has no validator registered. -/
def Echo.New : Echo := ⟨none⟩

/-- The server value `API`. -/
structure API where
  Echo : Echo
  Port : String
  Cache : SyncMap

/-- `config.Config`, of which the server reads the reporter port. -/
structure Config where
  ReporterPort : String

/-- What a handler consults of its `echo.Context`: the outcome of
`c.Bind(&ingestSource)` (the decoded descriptor, or the binder's error
message) and the path parameters `c.Param`. -/
structure Context where
  Bind : Except String Ingest
  Param : String → String

/-- Response payloads: `c.String`, `c.JSON` of an error map, of a descriptor
list, of one descriptor, and `c.NoContent`. -/
inductive Body where
  | text (s : String)
  | error (msg : String)
  | ingests (l : List Ingest)
  | ingest (d : Ingest)
  | noContent
deriving DecidableEq

/-- An HTTP response: status code and payload. -/
structure Response where
  status : Nat
  body : Body
deriving DecidableEq

def StatusOK : Nat := 200
def StatusBadRequest : Nat := 400
def StatusNotFound : Nat := 404
def StatusInternalServerError : Nat := 500

/-- `NewServer(cfg)`: the instance `server` receives the validator, but the
returned `API` holds another fresh `echo.New()`, and an empty cache. -/
def NewServer (cfg : Config) (validate : Validator) : API :=
  let _server : Echo := { Echo.New with Validator := some validate }
  { Echo := Echo.New, Port := cfg.ReporterPort, Cache := SyncMap.empty }

/-- `api.healthcheck`. -/
def healthcheck (api : API) (_c : Context) : Response × API :=
  (⟨StatusOK, .text "WORKING"⟩, api)

/-- `api.getIngests`. -/
def getIngests (api : API) (_c : Context) : Response × API :=
  let ingests : List Ingest :=
    api.Cache.Range (fun _key value ingests => (ingests ++ [value], true)) []
  if ingests.length ≤ 0 then
    (⟨StatusInternalServerError, .error "No ingest info available in cache"⟩, api)
  else
    (⟨StatusOK, .ingests ingests⟩, api)

/-- `api.updateIngests`: binds the body and stores the descriptor under its
signal; no validation call is made. -/
def updateIngests (api : API) (c : Context) : Response × API :=
  match c.Bind with
  | .error err => (⟨StatusBadRequest, .error err⟩, api)
  | .ok ingestSource =>
    (⟨StatusOK, .noContent⟩, { api with Cache := api.Cache.Store ingestSource.Signal ingestSource })

/-- `api.deleteCache`: ranges over the cache deleting every key visited. -/
def deleteCache (api : API) (_c : Context) : Response × API :=
  let cache := api.Cache.Range (fun key _value (cache : SyncMap) => (cache.Delete key, true)) api.Cache
  (⟨StatusOK, .noContent⟩, { api with Cache := cache })

/-- `api.getSignalIngest`. -/
def getSignalIngest (api : API) (c : Context) : Response × API :=
  let signalName := c.Param "name"
  match api.Cache.Load signalName with
  | none => (⟨StatusNotFound, .error "Active ingests servers not found"⟩, api)
  | some ingest => (⟨StatusOK, .ingest ingest⟩, api)

/-- The routes of `ConfigureRoutes`. -/
inductive Route where
  | healthcheck
  | getIngests
  | getSignalIngest
  | updateIngests
  | deleteCache
deriving DecidableEq

/-- Dispatch of a request to the handler registered for its route. -/
def Route.handle (r : Route) (api : API) (c : Context) : Response × API :=
  match r with
  | .healthcheck => Reporter.healthcheck api c
  | .getIngests => Reporter.getIngests api c
  | .getSignalIngest => Reporter.getSignalIngest api c
  | .updateIngests => Reporter.updateIngests api c
  | .deleteCache => Reporter.deleteCache api c

/-- The server after serving a sequence of requests, one after the other. -/
def serve (api : API) : List (Route × Context) → API
  | [] => api
  | (r, c) :: rest => serve (r.handle api c).2 rest

/-- Every entry of the cache is filed under the signal of its descriptor. -/
def KeysAreSignals (m : SyncMap) : Prop :=
  ∀ e ∈ m.entries, e.1 = e.2.Signal

/-! Concrete requests, used to exercise the statements below. -/

def sampleConfig : Config := ⟨"8080"⟩

def noValidation : Validator := fun _ => none

def cpuMetrics : Ingest := ⟨"cpu-metrics", [("url", "http://x")]⟩

def cpuMetricsMoved : Ingest := ⟨"cpu-metrics", [("url", "http://y")]⟩

def diskMetrics : Ingest := ⟨"disk-metrics", [("url", "http://z")]⟩

/-- A `POST /ingests` whose body binds to the descriptor. -/
def postOf (d : Ingest) : Context := ⟨.ok d, fun _ => ""⟩

/-- A `POST /ingests` whose body the binder rejects. -/
def postMalformed : Context := ⟨.error "unexpected EOF", fun _ => ""⟩

/-- A request with an empty body and the given `name` path parameter. -/
def getOf (name : String) : Context :=
  ⟨.ok ⟨"", []⟩, fun p => if p = "name" then name else ""⟩

/-! ## The cache operations -/

theorem SyncMap.find_filter_ne (l : List (String × Ingest)) (key k : String) (h : k ≠ key) :
    (l.filter (fun e => e.1 != key)).find? (fun e => e.1 == k) = l.find? (fun e => e.1 == k) := by
  induction l with
  | nil => rfl
  | cons e rest ih =>
    by_cases hk : e.1 = k
    · have hne : e.1 ≠ key := fun hc => h (hk ▸ hc)
      have hne2 : ¬ k = key := h
      simp [List.filter_cons, hk, hne2]
    · by_cases hkey : e.1 = key
      · simp [List.filter_cons, hkey, hk, ih, List.find?_cons, Ne.symm h]
      · simp [List.filter_cons, hkey, hk, ih, List.find?_cons]

theorem SyncMap.Load_Store_self (m : SyncMap) (key : String) (value : Ingest) :
    (m.Store key value).Load key = some value := by
  simp [SyncMap.Load, SyncMap.Store]

theorem SyncMap.Load_Store_ne (m : SyncMap) (key k : String) (value : Ingest) (h : k ≠ key) :
    (m.Store key value).Load k = m.Load k := by
  simp only [SyncMap.Load, SyncMap.Store]
  rw [List.find?_cons_of_neg]
  · rw [SyncMap.find_filter_ne _ _ _ h]
  · simpa using Ne.symm h

theorem SyncMap.find_eq_some_iff (l : List (String × Ingest)) (hl : (l.map Prod.fst).Nodup)
    (k : String) (v : Ingest) :
    (l.find? (fun e => e.1 == k)).map Prod.snd = some v ↔ (k, v) ∈ l := by
  induction l with
  | nil => simp
  | cons e rest ih =>
    rw [List.map_cons, List.nodup_cons] at hl
    obtain ⟨k0, v0⟩ := e
    by_cases hk : k0 = k
    · subst hk
      have hnot : (k0, v) ∉ rest := fun hm =>
        hl.1 (List.mem_map.2 ⟨(k0, v), hm, rfl⟩)
      simp only [List.find?_cons, beq_self_eq_true, Option.map_some', Option.some.injEq,
        List.mem_cons, Prod.mk.injEq, true_and]
      constructor
      · intro h; exact Or.inl h.symm
      · rintro (h | h)
        · exact h.symm
        · exact absurd h hnot
    · have hb : (k0 == k) = false := by simpa using hk
      simp only [List.find?_cons, hb, List.mem_cons, Prod.mk.injEq]
      rw [ih hl.2]
      constructor
      · exact Or.inr
      · rintro (⟨h, _⟩ | h)
        · exact absurd h.symm hk
        · exact h

theorem SyncMap.Load_eq_some_iff (m : SyncMap) (k : String) (v : Ingest) :
    m.Load k = some v ↔ (k, v) ∈ m.entries :=
  SyncMap.find_eq_some_iff m.entries m.nodup k v

theorem SyncMap.Load_eq_none_iff (m : SyncMap) (k : String) :
    m.Load k = none ↔ ∀ v, (k, v) ∉ m.entries := by
  constructor
  · intro h v hv
    rw [← SyncMap.Load_eq_some_iff, h] at hv
    exact Option.noConfusion hv
  · intro h
    cases hl : m.Load k with
    | none => rfl
    | some v => exact absurd ((SyncMap.Load_eq_some_iff m k v).1 hl) (h v)

theorem SyncMap.rangeLoop_collect (l : List (String × Ingest)) (acc : List Ingest) :
    SyncMap.rangeLoop (fun _key value ingests => (ingests ++ [value], true)) l acc
      = acc ++ l.map Prod.snd := by
  induction l generalizing acc with
  | nil => simp [SyncMap.rangeLoop]
  | cons e rest ih =>
    obtain ⟨k, v⟩ := e
    simp [SyncMap.rangeLoop, ih]

theorem SyncMap.rangeLoop_delete (l : List (String × Ingest)) (m : SyncMap)
    (h : ∀ e ∈ m.entries, e.1 ∈ l.map Prod.fst) :
    (SyncMap.rangeLoop (fun key _value (cache : SyncMap) => (cache.Delete key, true)) l m).entries
      = [] := by
  induction l generalizing m with
  | nil =>
    simp only [SyncMap.rangeLoop]
    cases hm : m.entries with
    | nil => rfl
    | cons e rest =>
      have := h e (by simp [hm])
      simp at this
  | cons e rest ih =>
    obtain ⟨k, v⟩ := e
    simp only [SyncMap.rangeLoop]
    apply ih
    intro e he
    simp only [SyncMap.Delete, List.mem_filter, bne_iff_ne, ne_eq] at he
    have := h e he.1
    simp only [List.map_cons, List.mem_cons] at this
    rcases this with h1 | h1
    · exact absurd h1 he.2
    · exact h1

theorem SyncMap.length_filter_of_mem (l : List (String × Ingest)) (hl : (l.map Prod.fst).Nodup)
    (k : String) (hk : k ∈ l.map Prod.fst) :
    (l.filter (fun e => e.1 != k)).length + 1 = l.length := by
  induction l with
  | nil => simp at hk
  | cons e rest ih =>
    rw [List.map_cons, List.nodup_cons] at hl
    by_cases he : e.1 = k
    · have hall : ∀ x ∈ rest, (fun e : String × Ingest => e.1 != k) x = true := by
        intro x hx
        have : x.1 ≠ k := fun hc => hl.1 (he ▸ hc ▸ List.mem_map_of_mem Prod.fst hx)
        simpa using this
      simp [List.filter_cons, he, List.filter_eq_self.2 hall]
    · have hk2 : k ∈ rest.map Prod.fst := by
        rw [List.map_cons, List.mem_cons] at hk
        rcases hk with h | h
        · exact absurd h.symm he
        · exact h
      simp [List.filter_cons, he, ih hl.2 hk2]

/-! ## The handlers -/

theorem getIngests_collects (api : API) :
    api.Cache.Range (fun _key value (ingests : List Ingest) => (ingests ++ [value], true)) []
      = api.Cache.entries.map Prod.snd := by
  simp [SyncMap.Range, SyncMap.rangeLoop_collect]

theorem getIngests_eq (api : API) (c : Context) :
    getIngests api c =
      if api.Cache.entries = [] then
        (⟨500, .error "No ingest info available in cache"⟩, api)
      else (⟨200, .ingests (api.Cache.entries.map Prod.snd)⟩, api) := by
  unfold getIngests
  simp only [getIngests_collects, StatusInternalServerError, StatusOK]
  cases h : api.Cache.entries <;> simp

theorem deleteCache_entries (api : API) (c : Context) :
    (deleteCache api c).2.Cache.entries = [] := by
  simp only [deleteCache, SyncMap.Range]
  exact SyncMap.rangeLoop_delete _ _ (fun e he => List.mem_map_of_mem Prod.fst he)

theorem handle_preserves_KeysAreSignals (r : Route) (api : API) (c : Context)
    (h : KeysAreSignals api.Cache) : KeysAreSignals (r.handle api c).2.Cache := by
  cases r with
  | healthcheck => exact h
  | getIngests =>
    simp only [Route.handle, getIngests_eq]
    split <;> exact h
  | getSignalIngest =>
    simp only [Route.handle, getSignalIngest]
    split <;> exact h
  | updateIngests =>
    simp only [Route.handle, updateIngests]
    split
    · exact h
    · intro e he
      simp only [SyncMap.Store, List.mem_cons, List.mem_filter] at he
      rcases he with he | he
      · rw [he]
      · exact h e he.1
  | deleteCache =>
    intro e he
    simp only [Route.handle] at he
    rw [deleteCache_entries] at he
    simp at he

theorem serve_KeysAreSignals (reqs : List (Route × Context)) (api : API)
    (h : KeysAreSignals api.Cache) : KeysAreSignals (serve api reqs).Cache := by
  induction reqs generalizing api with
  | nil => exact h
  | cons rc rest ih =>
    obtain ⟨r, c⟩ := rc
    exact ih _ (handle_preserves_KeysAreSignals r api c h)

/-! ## Register then look up -/

/-- C1: when `updateIngests` binds the body to `d1` it stores it, and a
`getSignalIngest` for the name `d1.Signal` on the resulting registry answers
200 with exactly `d1`: the lookup of that key yields `d1`, found. -/
theorem updateIngests_then_getSignalIngest (api : API) (c q : Context) (d1 : Ingest)
    (hbind : c.Bind = .ok d1) (hname : q.Param "name" = d1.Signal) :
    (updateIngests api c).1 = ⟨200, .noContent⟩ ∧
    (updateIngests api c).2.Cache.Load d1.Signal = some d1 ∧
    (getSignalIngest (updateIngests api c).2 q).1 = ⟨200, .ingest d1⟩ := by
  have hload : (updateIngests api c).2.Cache.Load d1.Signal = some d1 := by
    simp only [updateIngests, hbind]
    exact SyncMap.Load_Store_self _ _ _
  refine ⟨?_, hload, ?_⟩
  · simp [updateIngests, hbind, StatusOK]
  · simp only [getSignalIngest, hname, hload, StatusOK]

theorem updateIngests_then_getSignalIngest_witness :
    (postOf cpuMetrics).Bind = .ok cpuMetrics ∧
    (getOf "cpu-metrics").Param "name" = cpuMetrics.Signal ∧
    (getSignalIngest (updateIngests (NewServer sampleConfig noValidation) (postOf cpuMetrics)).2
      (getOf "cpu-metrics")).1 = ⟨200, .ingest cpuMetrics⟩ :=
  ⟨rfl, rfl,
    (updateIngests_then_getSignalIngest (NewServer sampleConfig noValidation) (postOf cpuMetrics)
      (getOf "cpu-metrics") cpuMetrics rfl rfl).2.2⟩

/-! ## Registration without a signal -/

/-- C2: on a fresh server, whose `Echo` has no validator registered, a register
request whose body binds to the descriptor with an empty `signal` is answered
200 with no content, and the descriptor is stored under the empty key. -/
theorem updateIngests_accepts_empty_signal (cfg : Config) (validate : Validator) :
    (NewServer cfg validate).Echo.Validator = none ∧
    (getSignalIngest (NewServer cfg validate) (getOf "")).1.status = 404 ∧
    (updateIngests (NewServer cfg validate) (postOf ⟨"", []⟩)).1 = ⟨200, .noContent⟩ ∧
    (updateIngests (NewServer cfg validate) (postOf ⟨"", []⟩)).2.Cache.Load "" = some ⟨"", []⟩ ∧
    (updateIngests (NewServer cfg validate) (postOf ⟨"", []⟩)).2.Cache.entries = [("", ⟨"", []⟩)] :=
  ⟨rfl, rfl, rfl, rfl, rfl⟩

/-! ## Lookup of one signal -/

/-- C3: `getSignalIngest` answers 404 with the error body "Active ingests
servers not found" exactly when the cache has no entry under the requested
name, and 200 exactly when it has one; a fresh server and a server just cleared
answer 404 for every name. -/
theorem getSignalIngest_notFound_iff (api : API) (c q : Context) (cfg : Config)
    (validate : Validator) :
    ((getSignalIngest api c).1 = ⟨404, .error "Active ingests servers not found"⟩ ↔
      ∀ d, (c.Param "name", d) ∉ api.Cache.entries) ∧
    ((getSignalIngest api c).1.status = 404 ↔ ∀ d, (c.Param "name", d) ∉ api.Cache.entries) ∧
    ((getSignalIngest api c).1.status = 200 ↔ ∃ d, (c.Param "name", d) ∈ api.Cache.entries) ∧
    (getSignalIngest (NewServer cfg validate) c).1
      = ⟨404, .error "Active ingests servers not found"⟩ ∧
    (getSignalIngest (deleteCache api q).2 c).1
      = ⟨404, .error "Active ingests servers not found"⟩ := by
  have key : ∀ a : API, a.Cache.entries = [] →
      (getSignalIngest a c).1 = ⟨404, .error "Active ingests servers not found"⟩ := by
    intro a ha
    have : a.Cache.Load (c.Param "name") = none := by
      rw [SyncMap.Load_eq_none_iff, ha]; intro v; simp
    simp only [getSignalIngest, this, StatusNotFound]
  refine ⟨?_, ?_, ?_, key _ rfl, key _ (deleteCache_entries api q)⟩
  all_goals
    cases hl : api.Cache.Load (c.Param "name") with
    | none =>
      have hno := (SyncMap.Load_eq_none_iff _ _).1 hl
      simp only [getSignalIngest, hl, StatusNotFound]
      simp [hno]
    | some d =>
      have hyes := (SyncMap.Load_eq_some_iff _ _ _).1 hl
      simp only [getSignalIngest, hl, StatusOK]
      simp
      exact ⟨d, hyes⟩

/-! ## Listing -/

/-- C4: `getIngests` answers 500 with the error body "No ingest info available
in cache" if and only if no key of the cache holds an entry; otherwise it
answers 200 with a list that has exactly one element per key present, namely the
descriptor stored under that key.  The cache is left as it was. -/
theorem getIngests_empty_iff (api : API) (c : Context) :
    ((getIngests api c).1 = ⟨500, .error "No ingest info available in cache"⟩ ↔
      ∀ k, api.Cache.Load k = none) ∧
    ((getIngests api c).1.status = 500 ↔ ∀ k, api.Cache.Load k = none) ∧
    ((∀ k, api.Cache.Load k = none) ∨
      ∃ (keys : List String) (l : List Ingest),
        (getIngests api c).1 = ⟨200, .ingests l⟩ ∧
        keys.Nodup ∧ (∀ k, k ∈ keys ↔ api.Cache.Load k ≠ none) ∧
        keys.map api.Cache.Load = l.map some) ∧
    (getIngests api c).2 = api := by
  have hempty : (∀ k, api.Cache.Load k = none) ↔ api.Cache.entries = [] := by
    constructor
    · intro h
      cases he : api.Cache.entries with
      | nil => rfl
      | cons e rest =>
        have := (SyncMap.Load_eq_none_iff _ _).1 (h e.1) e.2
        rw [he] at this
        simp at this
    · intro h k
      rw [SyncMap.Load_eq_none_iff, h]; intro v; simp
  rw [getIngests_eq, hempty]
  by_cases h : api.Cache.entries = []
  · simp [h]
  · rw [if_neg h]
    refine ⟨by simp [h], by simp [h], Or.inr ⟨api.Cache.entries.map Prod.fst,
      api.Cache.entries.map Prod.snd, rfl, api.Cache.nodup, ?_, ?_⟩, rfl⟩
    · intro k
      constructor
      · intro hk hnone
        obtain ⟨e, he, rfl⟩ := List.mem_map.1 hk
        exact (SyncMap.Load_eq_none_iff _ _).1 hnone e.2 he
      · intro hk
        cases hl : api.Cache.Load k with
        | none => exact absurd hl hk
        | some v =>
          exact List.mem_map.2 ⟨(k, v), (SyncMap.Load_eq_some_iff _ _ _).1 hl, rfl⟩
    · rw [List.map_map, List.map_map]
      apply List.map_congr_left
      intro e he
      exact (SyncMap.Load_eq_some_iff _ _ _).2 he

/-! ## Clearing -/

/-- C5: `deleteCache` answers 200 with no content whatever the cache held, and
leaves no entry: the enumeration of the cache is empty, a following `getIngests`
answers 500, every lookup finds nothing and `getSignalIngest` answers 404. -/
theorem deleteCache_clears (api : API) (c q : Context) :
    (deleteCache api c).1 = ⟨200, .noContent⟩ ∧
    (deleteCache api c).2.Cache.Range
      (fun _key value (ingests : List Ingest) => (ingests ++ [value], true)) [] = [] ∧
    (getIngests (deleteCache api c).2 q).1
      = ⟨500, .error "No ingest info available in cache"⟩ ∧
    (∀ k, (deleteCache api c).2.Cache.Load k = none) ∧
    (getSignalIngest (deleteCache api c).2 q).1.status = 404 := by
  have he := deleteCache_entries api c
  have hload : ∀ k, (deleteCache api c).2.Cache.Load k = none := by
    intro k
    rw [SyncMap.Load_eq_none_iff, he]; intro v; simp
  refine ⟨rfl, ?_, ?_, hload, ?_⟩
  · rw [getIngests_collects, he]; rfl
  · rw [getIngests_eq, he]; simp
  · simp only [getSignalIngest, hload, StatusNotFound]

/-! ## Two registrations -/

/-- C6: after two successful `updateIngests` calls, for `d1` and then `d2` with
different signals, `getIngests` answers 200 with a list that contains both `d1`
and `d2`. -/
theorem getIngests_after_two_puts (api : API) (c1 c2 q : Context) (d1 d2 : Ingest)
    (h1 : c1.Bind = .ok d1) (h2 : c2.Bind = .ok d2) (hne : d1.Signal ≠ d2.Signal) :
    ∃ l, (getIngests (updateIngests (updateIngests api c1).2 c2).2 q).1 = ⟨200, .ingests l⟩ ∧
      d1 ∈ l ∧ d2 ∈ l := by
  have hd2 : (d2.Signal, d2) ∈ (updateIngests (updateIngests api c1).2 c2).2.Cache.entries := by
    rw [← SyncMap.Load_eq_some_iff]
    simp only [updateIngests, h1, h2]
    exact SyncMap.Load_Store_self _ _ _
  have hd1 : (d1.Signal, d1) ∈ (updateIngests (updateIngests api c1).2 c2).2.Cache.entries := by
    rw [← SyncMap.Load_eq_some_iff]
    simp only [updateIngests, h1, h2]
    rw [SyncMap.Load_Store_ne _ _ _ _ hne]
    exact SyncMap.Load_Store_self _ _ _
  refine ⟨(updateIngests (updateIngests api c1).2 c2).2.Cache.entries.map Prod.snd, ?_, ?_, ?_⟩
  · rw [getIngests_eq, if_neg]
    intro hnil
    rw [hnil] at hd2
    simp at hd2
  · exact List.mem_map.2 ⟨_, hd1, rfl⟩
  · exact List.mem_map.2 ⟨_, hd2, rfl⟩

theorem getIngests_after_two_puts_witness :
    (postOf cpuMetrics).Bind = .ok cpuMetrics ∧ (postOf diskMetrics).Bind = .ok diskMetrics ∧
    cpuMetrics.Signal ≠ diskMetrics.Signal ∧
    ∃ l, (getIngests (updateIngests (updateIngests (NewServer sampleConfig noValidation)
        (postOf cpuMetrics)).2 (postOf diskMetrics)).2 (getOf "")).1 = ⟨200, .ingests l⟩ ∧
      cpuMetrics ∈ l ∧ diskMetrics ∈ l :=
  ⟨rfl, rfl, by decide,
    getIngests_after_two_puts (NewServer sampleConfig noValidation) (postOf cpuMetrics)
      (postOf diskMetrics) (getOf "") cpuMetrics diskMetrics rfl rfl (by decide)⟩

/-! ## One descriptor per signal -/

/-- C7: in every state the server reaches from `NewServer` by serving any
sequence of requests, the list `getIngests` returns never holds two descriptors
with the same `Signal`, and registering `d2` under a signal that already holds
`d1` replaces it: the lookup then yields `d2` and the number of entries is the
same as before. -/
theorem one_descriptor_per_signal (cfg : Config) (validate : Validator)
    (reqs : List (Route × Context)) :
    (∀ q l, (getIngests (serve (NewServer cfg validate) reqs) q).1 = ⟨200, .ingests l⟩ →
      (l.map Ingest.Signal).Nodup) ∧
    (∀ c d1 d2, (serve (NewServer cfg validate) reqs).Cache.Load d2.Signal = some d1 →
      c.Bind = .ok d2 →
      (updateIngests (serve (NewServer cfg validate) reqs) c).2.Cache.Load d2.Signal = some d2 ∧
      (updateIngests (serve (NewServer cfg validate) reqs) c).2.Cache.entries.length
        = (serve (NewServer cfg validate) reqs).Cache.entries.length) := by
  have hinv : KeysAreSignals (serve (NewServer cfg validate) reqs).Cache :=
    serve_KeysAreSignals reqs _ (fun e he => by simp [NewServer, SyncMap.empty] at he)
  generalize serve (NewServer cfg validate) reqs = api at hinv ⊢
  constructor
  · intro q l hl
    rw [getIngests_eq] at hl
    by_cases h : api.Cache.entries = []
    · rw [if_pos h] at hl
      simp at hl
    · rw [if_neg h] at hl
      simp only [Response.mk.injEq, Body.ingests.injEq, true_and] at hl
      have hmap : l.map Ingest.Signal = api.Cache.entries.map Prod.fst := by
        rw [← hl, List.map_map]
        apply List.map_congr_left
        intro e he
        exact (hinv e he).symm
      rw [hmap]
      exact api.Cache.nodup
  · intro c d1 d2 hold hbind
    simp only [updateIngests, hbind]
    refine ⟨SyncMap.Load_Store_self _ _ _, ?_⟩
    have hmem : d2.Signal ∈ api.Cache.entries.map Prod.fst :=
      List.mem_map.2 ⟨_, (SyncMap.Load_eq_some_iff _ _ _).1 hold, rfl⟩
    simp only [SyncMap.Store, List.length_cons]
    exact SyncMap.length_filter_of_mem _ api.Cache.nodup _ hmem

theorem one_descriptor_per_signal_witness :
    (getIngests (serve (NewServer sampleConfig noValidation)
        [(.updateIngests, postOf cpuMetrics), (.updateIngests, postOf diskMetrics)])
      (getOf "")).1 = ⟨200, .ingests [diskMetrics, cpuMetrics]⟩ ∧
    ([diskMetrics, cpuMetrics].map Ingest.Signal).Nodup ∧
    (serve (NewServer sampleConfig noValidation)
        [(.updateIngests, postOf cpuMetrics), (.updateIngests, postOf diskMetrics)]).Cache.Load
      cpuMetricsMoved.Signal = some cpuMetrics ∧
    (postOf cpuMetricsMoved).Bind = .ok cpuMetricsMoved ∧
    (updateIngests (serve (NewServer sampleConfig noValidation)
        [(.updateIngests, postOf cpuMetrics), (.updateIngests, postOf diskMetrics)])
      (postOf cpuMetricsMoved)).2.Cache.Load cpuMetricsMoved.Signal = some cpuMetricsMoved :=
  ⟨rfl,
    (one_descriptor_per_signal sampleConfig noValidation
      [(.updateIngests, postOf cpuMetrics), (.updateIngests, postOf diskMetrics)]).1
      (getOf "") [diskMetrics, cpuMetrics] rfl,
    rfl, rfl,
    ((one_descriptor_per_signal sampleConfig noValidation
      [(.updateIngests, postOf cpuMetrics), (.updateIngests, postOf diskMetrics)]).2
      (postOf cpuMetricsMoved) cpuMetrics cpuMetricsMoved rfl rfl).1⟩

/-! ## Failed requests -/

/-- C9: a request that is answered with a status other than 200 leaves the
cache exactly as it was; such an answer is the 400 of `updateIngests` on a
binding failure, the 404 of `getSignalIngest` on a missing key, or the 500 of
`getIngests` on an empty cache. -/
theorem failed_request_keeps_registry (api : API) (r : Route) (c : Context)
    (hfail : (r.handle api c).1.status ≠ 200) :
    (r.handle api c).2.Cache = api.Cache ∧
    ((r = .updateIngests ∧ (r.handle api c).1.status = 400 ∧ ∃ err, c.Bind = .error err) ∨
     (r = .getSignalIngest ∧ (r.handle api c).1.status = 404 ∧
        api.Cache.Load (c.Param "name") = none) ∨
     (r = .getIngests ∧ (r.handle api c).1.status = 500 ∧ api.Cache.entries = [])) := by
  cases r with
  | healthcheck => exact absurd rfl hfail
  | getIngests =>
    simp only [Route.handle, getIngests_eq] at hfail ⊢
    by_cases h : api.Cache.entries = []
    · simp [h]
    · rw [if_neg h] at hfail
      exact absurd rfl hfail
  | getSignalIngest =>
    simp only [Route.handle, getSignalIngest] at hfail ⊢
    cases hl : api.Cache.Load (c.Param "name") with
    | none => simp [StatusNotFound]
    | some d =>
      rw [hl] at hfail
      exact absurd rfl hfail
  | updateIngests =>
    simp only [Route.handle, updateIngests] at hfail ⊢
    cases hb : c.Bind with
    | error err => simp [StatusBadRequest]
    | ok d =>
      rw [hb] at hfail
      exact absurd rfl hfail
  | deleteCache => exact absurd rfl hfail

theorem failed_request_keeps_registry_witness :
    (Route.updateIngests.handle
        (serve (NewServer sampleConfig noValidation) [(.updateIngests, postOf cpuMetrics)])
        postMalformed).1.status ≠ 200 ∧
    (Route.updateIngests.handle
        (serve (NewServer sampleConfig noValidation) [(.updateIngests, postOf cpuMetrics)])
        postMalformed).2.Cache
      = (serve (NewServer sampleConfig noValidation) [(.updateIngests, postOf cpuMetrics)]).Cache :=
  ⟨by decide,
    (failed_request_keeps_registry
      (serve (NewServer sampleConfig noValidation) [(.updateIngests, postOf cpuMetrics)])
      .updateIngests postMalformed (by decide)).1⟩

/-! ## Entries outlive every request but a clear -/

/-- C10: an entry `d` held under key `k` is still held, unchanged, after any
request other than `deleteCache`, provided that an `updateIngests` among them
binds a descriptor whose signal differs from `k`; and a successful
`updateIngests` of `d2` leaves the lookup of every key other than `d2.Signal`
as it was. -/
theorem entries_survive_other_requests (api : API) (r : Route) (c : Context) (k : String)
    (d : Ingest) (hheld : api.Cache.Load k = some d) (hr : r ≠ .deleteCache)
    (hkey : r = .updateIngests → ∀ d2, c.Bind = .ok d2 → d2.Signal ≠ k) :
    (r.handle api c).2.Cache.Load k = some d ∧
    (∀ d2 k2, c.Bind = .ok d2 → k2 ≠ d2.Signal →
      (updateIngests api c).2.Cache.Load k2 = api.Cache.Load k2) := by
  constructor
  · cases r with
    | healthcheck => exact hheld
    | getIngests =>
      simp only [Route.handle, getIngests_eq]
      split <;> exact hheld
    | getSignalIngest =>
      simp only [Route.handle, getSignalIngest]
      split <;> exact hheld
    | updateIngests =>
      simp only [Route.handle, updateIngests]
      cases hb : c.Bind with
      | error err => exact hheld
      | ok d2 =>
        simp only
        rw [SyncMap.Load_Store_ne _ _ _ _ (Ne.symm (hkey rfl d2 hb))]
        exact hheld
    | deleteCache => exact absurd rfl hr
  · intro d2 k2 hb hk2
    simp only [updateIngests, hb]
    exact SyncMap.Load_Store_ne _ _ _ _ hk2

theorem entries_survive_other_requests_witness :
    (serve (NewServer sampleConfig noValidation) [(.updateIngests, postOf cpuMetrics)]).Cache.Load
      "cpu-metrics" = some cpuMetrics ∧
    Route.updateIngests ≠ Route.deleteCache ∧
    (Route.updateIngests.handle
        (serve (NewServer sampleConfig noValidation) [(.updateIngests, postOf cpuMetrics)])
        (postOf diskMetrics)).2.Cache.Load "cpu-metrics" = some cpuMetrics :=
  ⟨rfl, by decide,
    (entries_survive_other_requests
      (serve (NewServer sampleConfig noValidation) [(.updateIngests, postOf cpuMetrics)])
      .updateIngests (postOf diskMetrics) "cpu-metrics" cpuMetrics rfl (by decide)
      (fun _ d2 hb => by
        have h2 : d2 = diskMetrics := by
          have := hb.symm
          simp only [postOf] at this
          exact Except.ok.inj this
        rw [h2]; decide)).1⟩

end Reporter
